import Mathlib

/-!
Verification of the `manu` script-configuration library.

This file gives a shallow embedding of the core of the `manu` package
(`src/manu/context.py`, `src/manu/hooks.py`, `src/manu/model.py`,
`src/manu/script.py`, `src/manu/docstring.py`) and proves properties of the
reference-resolution DSL, the validation context, the hook registry, the
session controller guards, the documentation resolver, and the configuration
tier merge.

Python strings are modelled as `List Char`; Python values (`Any`) as the
inductive `Value`; raised exceptions as `Except`/`Option` error results.
-/

namespace Manu

/-- Python strings are modelled as lists of characters. -/
abbrev Str := List Char

/-- Shorthand turning a Lean string literal into the `Str` model. -/
def lit (s : String) : Str := s.data

/-- A single-quote character, used by `pyRepr` (written via its code point). -/
def sq : Char := Char.ofNat 39

/-- Model of Python runtime values (`Any`) as far as the core needs them:
strings, integers, booleans, `None`, and string-keyed dictionaries (the data
tree that interpolation paths traverse). -/
inductive Value where
  | str (s : Str)
  | int (n : Int)
  | bool (b : Bool)
  | none
  | dict (entries : List (Str × Value))

mutual

/-- Python `repr` of a value, used by `str()` on dictionaries.  String escaping
is not modelled (no claim stringifies a string containing quotes). -/
def pyRepr : Value → Str
  | .str s => sq :: (s ++ [sq])
  | .int n => (toString n).data
  | .bool b => if b then lit "True" else lit "False"
  | .none => lit "None"
  | .dict es => '{' :: (pyReprEntries es ++ ['}'])

/-- `repr` of the comma-separated entries of a dictionary. -/
def pyReprEntries : List (Str × Value) → Str
  | [] => []
  | [(k, v)] => (sq :: (k ++ [sq])) ++ ':' :: ' ' :: pyRepr v
  | (k, v) :: e :: es =>
    (sq :: (k ++ [sq])) ++ ':' :: ' ' :: pyRepr v ++ ',' :: ' ' :: pyReprEntries (e :: es)

end

/-- Python `str()` of a value: the identity on strings, `repr`-like otherwise.
This models the `str(replacement)` call in `validate_script_fields`. -/
def pyStr : Value → Str
  | .str s => s
  | v => pyRepr v

/-- Python truthiness test (`if not data:`): `None`, `0`, `False`, the empty
string and the empty dict are falsy. -/
def isFalsy : Value → Bool
  | .none => true
  | .str s => s.isEmpty
  | .int n => n = 0
  | .bool b => !b
  | .dict es => es.isEmpty

/-- The distinct `ValueError`s raised by the core (`context.py`, `hooks.py`),
plus the registration-time error.  `notTraversable` and `keyNotFound` are the
two MissingPath traversal failures of `ValidationContext.get_nested_value`. -/
inductive PyErr where
  | noContextData
  | notTraversable (key : Str)
  | keyNotFound (key : Str)
  | noHandler (hook : Str)
  | alreadyRegistered (hook : Str)
deriving DecidableEq

/-- Python `path.split(".")`: splitting an empty string yields `[""]`, and
consecutive dots yield empty segments, exactly as in Python. -/
def splitOnDot : Str → List Str
  | [] => [[]]
  | c :: cs =>
    match splitOnDot cs with
    | [] => [[]]
    | r :: rs => if c = '.' then [] :: r :: rs else (c :: r) :: rs

/-- The key-by-key traversal loop of `ValidationContext.get_nested_value`:
each segment requires the current value to be a dict containing the key. -/
def getNested : Value → List Str → Except PyErr Value
  | d, [] => .ok d
  | .dict es, k :: ks =>
    match List.lookup k es with
    | some v => getNested v ks
    | Option.none => .error (.keyNotFound k)
  | _, k :: _ => .error (.notTraversable k)

/-- The thread-local state of `ValidationContext`: the reentrancy depth
counter and the optional `data` attribute (`none` models the attribute being
absent).  The depth is an integer because Python's counter can go negative on
an unbalanced exit. -/
structure ContextState where
  depth : Int
  data : Option Value

/-- `ValidationContext.root_data` on entry to the `with` block: installs the
root data only at depth zero when no data is present, then increments the
depth counter. -/
def root_data_enter (st : ContextState) (d : Value) : ContextState :=
  if st.depth = 0 ∧ st.data.isNone then { depth := st.depth + 1, data := some d }
  else { depth := st.depth + 1, data := st.data }

/-- `ValidationContext.root_data` on exit from the `with` block (the `finally`
clause, so it runs on every exit path including exceptional ones): decrements
the depth counter, then deletes the data exactly when the counter is back to
zero and data is present. -/
def root_data_exit (st : ContextState) : ContextState :=
  { depth := st.depth - 1
    data := if st.depth - 1 = 0 ∧ st.data.isSome then Option.none else st.data }

/-- `ValidationContext.get_root_data`: `getattr(cls._context, "data", None)`. -/
def get_root_data (st : ContextState) : Option Value := st.data

/-- `ValidationContext.get_nested_value`: fails when no (truthy) root data is
active, then performs the dotted-path traversal. -/
def get_nested_value (st : ContextState) (path : Str) : Except PyErr Value :=
  match get_root_data st with
  | Option.none => .error .noContextData
  | some d =>
    if isFalsy d then .error .noContextData
    else getNested d (splitOnDot path)

/-- Split a string at its first closing brace: `some (inner, tail)` when a
`'}'` occurs, with `inner` the maximal `'}'`-free run before it and `tail` the
remainder after it.  This is how the regular expressions `\x7b([^\x7d]+)\x7d`
(`HOOK_EXPANSION_REGEX`) and `@\x7b([^\x7d]+)\x7d`
(`PREFIXED_HOOK_EXPANSION_REGEX`) locate the end of a brace group. -/
def breakCloseBrace : Str → Option (Str × Str)
  | [] => Option.none
  | c :: cs =>
    if c = '}' then some ([], cs)
    else
      match breakCloseBrace cs with
      | Option.none => Option.none
      | some (inn, tail) => some (c :: inn, tail)

theorem breakCloseBrace_length {s inn tail : Str}
    (h : breakCloseBrace s = some (inn, tail)) : tail.length < s.length := by
  induction s generalizing inn tail with
  | nil => simp [breakCloseBrace] at h
  | cons c cs ih =>
    by_cases hc : c = '}'
    · simp [breakCloseBrace, hc] at h
      simp [← h.2]
    · simp only [breakCloseBrace, if_neg hc] at h
      cases hbc : breakCloseBrace cs with
      | none => rw [hbc] at h; simp at h
      | some p =>
        rw [hbc] at h
        cases p with
        | mk i t =>
          simp at h
          have := @ih i t hbc
          simp [← h.2]
          omega

/-- The matches of `re.finditer(PREFIXED_HOOK_EXPANSION_REGEX, s)`: the list
of group-1 capture strings (interpolation paths) of the non-overlapping
occurrences of `@\x7b([^\x7d]+)\x7d` in `s`, scanning left to right.  A
candidate `@` with no nonempty closed brace group after it is skipped and the
scan resumes one character later, as in the `re` engine. -/
def findInterps : Str → List Str
  | [] => []
  | [_] => []
  | c :: d :: rest =>
    if c = '@' ∧ d = '{' then
      match h : breakCloseBrace rest with
      | some (inn, tail) =>
        if inn.isEmpty then findInterps (d :: rest) else inn :: findInterps tail
      | Option.none => findInterps (d :: rest)
    else findInterps (d :: rest)
termination_by s => s.length
decreasing_by
  · simp
  · have := breakCloseBrace_length h
    simp only [List.length_cons]
    omega
  · simp
  · simp

/-- Python `s.replace(pat, repl)`: replace every non-overlapping occurrence of
`pat` in `s` by `repl`, scanning left to right.  (The core never calls it with
an empty pattern; on an empty pattern this model is the identity.) -/
def replaceAll (pat repl : Str) : Str → Str
  | [] => []
  | c :: cs =>
    if h : pat ≠ [] ∧ pat.isPrefixOf (c :: cs) then
      repl ++ replaceAll pat repl ((c :: cs).drop pat.length)
    else
      c :: replaceAll pat repl cs
termination_by s => s.length
decreasing_by
  · simp only [List.length_drop, List.length_cons]
    have : pat.length ≠ 0 := fun hz => h.1 (List.length_eq_zero.mp hz)
    omega
  · simp

/-- Python `pat in s` (substring containment). -/
def containsSub (pat : Str) : Str → Bool
  | [] => pat.isEmpty
  | c :: cs => pat.isPrefixOf (c :: cs) || containsSub pat cs

/-- Python `s.startswith("@")`. -/
def startsWithAt : Str → Bool
  | [] => false
  | c :: _ => c = '@'

/-- Python `s.startswith("@\x7b")`. -/
def startsWithAtBrace : Str → Bool
  | [] => false
  | [_] => false
  | c :: d :: _ => c = '@' && d = '{'

/-- The interpolation loop of `ScriptModel.validate_script_fields`: for each
`@\x7b...\x7d` match found in the original value, look the path up in the
context's root data and, on success, textually substitute every occurrence of
the matched text by the stringified value; a lookup failure (`ValueError`) is
caught and leaves the accumulated string untouched. -/
def interpStep (st : ContextState) (acc path : Str) : Str :=
  match get_nested_value st path with
  | .ok repl => replaceAll ('@' :: '{' :: (path ++ ['}'])) (pyStr repl) acc
  | .error _ => acc

/-- The full interpolation loop: fold the per-match step over the matches
found in the original value, starting from the original value. -/
def interpolateAll (st : ContextState) (orig : Str) : Str :=
  (findInterps orig).foldl (interpStep st) orig

/-- A hook handler (`HandlerType` in `hooks.py`): a function of the raw
argument string and the validation context; a raised exception is an
`Except.error`. -/
abbrev Handler := Str → ContextState → Except PyErr Value

/-- The `HookRegistry._handlers` dict: hook names mapped to handlers, in
registration order. -/
abbrev Registry := List (Str × Handler)

namespace HookRegistry

/-- `HookRegistry.register`: fails (leaving the registry unchanged) when the
hook name is already present, otherwise inserts the handler. -/
def register (reg : Registry) (hook : Str) (h : Handler) : Option PyErr × Registry :=
  if (List.lookup hook reg).isSome then (some (.alreadyRegistered hook), reg)
  else (Option.none, reg ++ [(hook, h)])

/-- `HookRegistry.get_handler`: fails when no handler is registered under the
hook name. -/
def get_handler (reg : Registry) (hook : Str) : Except PyErr Handler :=
  match List.lookup hook reg with
  | Option.none => .error (.noHandler hook)
  | some h => .ok h

/-- `HookRegistry.clear`: empties the registry. -/
def clear (_ : Registry) : Registry := []

end HookRegistry

/-- The built-in `value` hook (`hooks.value_hook`): a dotted-path lookup in
the context's root data. -/
def value_hook : Handler := fun path st => get_nested_value st path

/-- `re.match(HOOK_EXPANSION_REGEX, s)` at the start of `s`: `some inner` when
`s` begins with a brace group holding at least one non-`'}'` character;
trailing text after the group is allowed, as with `re.match`. -/
def matchBraceAtStart : Str → Option Str
  | [] => Option.none
  | c :: rest =>
    if c = '{' then
      match breakCloseBrace rest with
      | some (inn, _) => if inn.isEmpty then Option.none else some inn
      | Option.none => Option.none
    else Option.none

/-- Python `ref.split(":", 1)` when `":" in ref`: `some (before, after)` at
the first colon. -/
def splitFirstColon : Str → Option (Str × Str)
  | [] => Option.none
  | c :: cs =>
    if c = ':' then some ([], cs)
    else
      match splitFirstColon cs with
      | Option.none => Option.none
      | some (a, b) => some (c :: a, b)

/-- `ScriptModel._process_reference` (src/manu/model.py): strip the leading
`@` markers (`str.lstrip` removes every leading occurrence), then:
a brace group at the start selects the `value` hook with the group contents;
otherwise a value containing a colon is split at the first colon into hook
name and argument; otherwise the whole remainder is the hook name with an
empty argument.  The handler is fetched from the registry and invoked with
the raw argument and the active context. -/
def process_reference (reg : Registry) (st : ContextState) (ref : Str) :
    Except PyErr Value :=
  match matchBraceAtStart (ref.dropWhile (fun c => c = '@')) with
  | some inner =>
    match HookRegistry.get_handler reg (lit "value") with
    | .ok h => h inner st
    | .error e => .error e
  | Option.none =>
    match splitFirstColon (ref.dropWhile (fun c => c = '@')) with
    | some (hk, arg) =>
      match HookRegistry.get_handler reg hk with
      | .ok h => h arg st
      | .error e => .error e
    | Option.none =>
      match HookRegistry.get_handler reg (ref.dropWhile (fun c => c = '@')) with
      | .ok h => h [] st
      | .error e => .error e

/-- The `requires_resolution` test of `validate_script_fields`: a string
value containing `@\x7b` or starting with `@`. -/
def requiresResolution : Value → Bool
  | .str s => containsSub ('@' :: ['{']) s || startsWithAt s
  | _ => false

/-- The body of the reference loop of `ScriptModel.validate_script_fields`
for one field value: run the interpolation loop, and when it changed nothing
and the whole value is a single non-interpolation `@` reference, process it
as a hook call (whose result replaces the field unstringified). -/
def resolveFieldValue (reg : Registry) (st : ContextState) : Value → Except PyErr Value
  | .str orig =>
    if requiresResolution (.str orig) then
      let processed := interpolateAll st orig
      if processed = orig ∧ startsWithAt orig ∧ ¬ startsWithAtBrace orig then
        process_reference reg st orig
      else .ok (.str processed)
    else .ok (.str orig)
  | fv => .ok fv

/-- The reference loop of `validate_script_fields` over the fields of the
model dict, skipping names absent from the type hints.  The context's root
data is the same dict object being validated (installed by
`ScriptModel.model_validate` via `with ValidationContext.root_data(obj)`), so
each field is resolved against the dict with all earlier fields already
updated in place; the depth counter is 1 inside that single `with` block. -/
def resolveFields (reg : Registry) (hints : List Str) :
    List (Str × Value) → List (Str × Value) → Except PyErr (List (Str × Value))
  | done, [] => .ok done
  | done, (n, fv) :: todo =>
    if n ∈ hints then
      match resolveFieldValue reg ⟨1, some (.dict (done ++ (n, fv) :: todo))⟩ fv with
      | .ok fv' => resolveFields reg hints (done ++ [(n, fv')]) todo
      | .error e => .error e
    else resolveFields reg hints (done ++ [(n, fv)]) todo

/-- `ScriptModel.validate_script_fields`: non-dict inputs pass through; dict
inputs have each hinted field resolved in place. -/
def validate_script_fields (reg : Registry) (hints : List Str) (v : Value) :
    Except PyErr Value :=
  match v with
  | .dict fields => (resolveFields reg hints [] fields).map .dict
  | v => .ok v

/-- A configuration declaration: the typed, valued unit merged across tiers
(`Declaration` of the spec's data model; a later tier replaces both the value
and the type for a name). -/
structure Decl where
  type : Str
  value : Value

/-- Modelled from the spec: the configuration layering step is missing from
the source — `_Script.ready` (src/manu/script.py) contains the tier merge
only as commented-out scaffolding — so the two-tier merge is taken from the
spec's words: "Merge by name: a later tier fully replaces an earlier tier's
value and type for that name; tiers silent on a name leave the earlier entry
untouched", "preserving first-seen ordering from the earliest tier
introducing each name". -/
def mergeTwo (earlier later : List (Str × Decl)) : List (Str × Decl) :=
  (earlier.map (fun e => (e.1, (List.lookup e.1 later).getD e.2)))
    ++ later.filter (fun e => (List.lookup e.1 earlier).isNone)

/-- Modelled from the spec: the three-tier merge `code < file < cli` in
increasing precedence, by iterated two-tier merge. -/
def mergeTiers (code file cli : List (Str × Decl)) : List (Str × Decl) :=
  mergeTwo (mergeTwo code file) cli

/-- The `RuntimeError`s (and the terminal `NameError`) of the `_Script`
session controller. -/
inductive RtErr where
  | alreadyInit
  | notInit
  | frameFail
  | fileReadFail
  | nameErrMainArgs
deriving DecidableEq

/-- The `_Script` dataclass state (src/manu/script.py).  The source field
`initialized` is named `inited` here. -/
structure ScriptState where
  description : Option Str := Option.none
  initGlobals : List Str := []
  inited : Bool := false
  file : Option Str := Option.none
  savePath : Option Str := Option.none
  lines : Option (List Str) := Option.none
  start : Option Nat := Option.none
deriving DecidableEq

/-- The data `inspect` extracts from the caller's frame at `init`/`ready`
time: filename, line number, the keys and `__doc__` of the enclosing
namespace, and the file's lines.  A frame that cannot be inspected is modelled
as `none`. -/
structure FrameInfo where
  filename : Str
  lineno : Nat
  globalsKeys : List Str
  docValue : Str
  fileLines : List Str
deriving DecidableEq

/-- `_Script.init`: the reentrancy guard runs first (so a failure leaves the
state unchanged), then the frame check, then the capture of file lines,
description (`description or context.get("__doc__", "")`), namespace keys and
start line. -/
def init (st : ScriptState) (desc : Option Str) (frame : Option FrameInfo) :
    Option RtErr × ScriptState :=
  if st.inited then (some .alreadyInit, st)
  else
    match frame with
    | Option.none => (some .frameFail, st)
    | some fr =>
      (Option.none,
        { st with
          lines := some fr.fileLines
          file := some fr.filename
          description := some (match desc with
            | some d => if d.isEmpty then fr.docValue else d
            | Option.none => fr.docValue)
          initGlobals := fr.globalsKeys
          inited := true
          start := some fr.lineno })

/-- The element following the first occurrence of `x` in `xs`
(`sys.argv[sys.argv.index(x) + 1]`); `none` when absent or last. -/
def elemAfter (x : Str) : List Str → Option Str
  | [] => Option.none
  | y :: ys => if y = x then ys.head? else elemAfter x ys

/-- `_Script.ready`: the not-initialized guard runs first (so a failure
leaves the state unchanged), then the frame check.  The remaining live body
reads a `-c` config file (filesystem access is outside the model: `configOk`
says whether the read succeeds), records the `-s` save path on the state, and
then always fails with a `NameError`, because it references the undefined
name `MainArgs` (the merge/validate/write-back steps are commented out in the
source). -/
def ready (st : ScriptState) (frame : Option FrameInfo) (argv : List Str)
    (configOk : Bool) : Option RtErr × ScriptState :=
  if ¬ st.inited then (some .notInit, st)
  else
    match frame with
    | Option.none => (some .frameFail, st)
    | some _ =>
      if (lit "-c") ∈ argv ∧ ¬ configOk then (some .fileReadFail, st)
      else
        let st1 :=
          if (lit "-s") ∈ argv then
            match elemAfter (lit "-s") argv with
            | some p => { st with savePath := some p }
            | Option.none => st
          else st
        (some .nameErrMainArgs, st1)

/-- The token kinds of `tokenize` that `get_var_docstring` distinguishes. -/
inductive TokKind where
  | comment
  | strLit
  | nameTok
  | other
deriving DecidableEq

/-- `docstring._Token`: kind, text, logical and physical line numbers. -/
structure Token where
  kind : TokKind
  content : Str
  logicalLine : Nat
  actualLine : Nat
deriving DecidableEq

/-- `docstring._VarData`: per-declaration tokenization data. -/
structure VarData where
  index : Nat
  logicalLine : Nat
  actualLine : Nat
  prevFieldLogicalLine : Nat
deriving DecidableEq

/-- `docstring._ScriptTokenization`: the token stream plus its two line
indexes and the per-name declaration data, as produced by
`_ScriptTokenization.make` (which numbers lines from 1). -/
structure ScriptTokenization where
  tokens : List Token
  tokensFromLogicalLine : List (Nat × List Token)
  tokensFromActualLine : List (Nat × List Token)
  varDataFromName : List (Str × VarData)
deriving DecidableEq

/-- Modelled from the spec: `tyro._strings.remove_single_line_breaks` is an
external dependency, not under src/; the spec says "Multi-line bodies
collapse internal breaks to spaces".  On the single-line comment bodies the
claims concern it is the identity. -/
def removeSingleLineBreaks (s : Str) : Str :=
  s.map (fun c => if c = '\n' then ' ' else c)

/-- Python `s.strip()`: remove leading and trailing whitespace. -/
def pyStrip (s : Str) : Str :=
  ((s.dropWhile Char.isWhitespace).reverse.dropWhile Char.isWhitespace).reverse

/-- Remove every leading and trailing occurrence of `c` (Python
`s.strip(c)` for a single character). -/
def dropAround (c : Char) (s : Str) : Str :=
  ((s.dropWhile (· = c)).reverse.dropWhile (· = c)).reverse

/-- Modelled from the spec: the value of a string-literal token.
`get_var_docstring` obtains it with `ast.literal_eval` (external `ast`
module), falling back to crudely stripping quotes; the model uses the
quote-stripping form `content.strip().strip(quote).strip(apostrophe)`. -/
def stringLiteralValue (content : Str) : Str :=
  dropAround sq (dropAround '"' (pyStrip content))

/-- Python `"\n".join(xs)` (for the reversed comment block). -/
def joinWith (sep : Str) : List Str → Str
  | [] => []
  | [x] => x
  | x :: y :: xs => x ++ sep ++ joinWith sep (y :: xs)

/-- The mutable state of the comments-above loop of `get_var_docstring`:
collected comment bodies, whether the block sits directly above the field,
and whether a Sphinx-style `#:` comment was seen. -/
structure CommentScan where
  comments : List Str
  directlyAboveField : Bool
  sphinxDoc : Bool
deriving DecidableEq

/-- The backwards walk over physical lines of `get_var_docstring` collecting
whole-line comments: it stops at a line absent from the index, at an empty
line, or at a non-comment line once comments have been collected; a
non-comment line before any comment clears `directlyAboveField`.  Line 0 is
never a key (lines are numbered from 1), so the walk stops there. -/
def commentsAbove (tk : ScriptTokenization) : Nat → CommentScan → CommentScan
  | 0, acc => acc
  | n + 1, acc =>
    match List.lookup (n + 1) tk.tokensFromActualLine with
    | Option.none => acc
    | some lineTokens =>
      if lineTokens.isEmpty then acc
      else
        match lineTokens with
        | [t] =>
          if t.kind = TokKind.comment then
            if (lit "#:").isPrefixOf t.content then
              commentsAbove tk n
                ⟨acc.comments ++ [pyStrip (t.content.drop 2)], acc.directlyAboveField, true⟩
            else
              commentsAbove tk n
                ⟨acc.comments ++ [pyStrip (t.content.drop 1)], acc.directlyAboveField, acc.sphinxDoc⟩
          else if acc.comments.isEmpty then
            commentsAbove tk n ⟨acc.comments, false, acc.sphinxDoc⟩
          else acc
        | _ =>
          if acc.comments.isEmpty then
            commentsAbove tk n ⟨acc.comments, false, acc.sphinxDoc⟩
          else acc

/-- The comments-above fallback of `get_var_docstring`: run the backwards
walk from the line above the declaration and, when comments were found and
the block is not a Sphinx comment detached from the field, join them
top-to-bottom. -/
def commentFallback (tk : ScriptTokenization) (vd : VarData) : Option Str :=
  let res := commentsAbove tk (vd.actualLine - 1) ⟨[], true, false⟩
  if ¬ res.comments.isEmpty ∧ ¬ (res.sphinxDoc ∧ ¬ res.directlyAboveField) then
    some (removeSingleLineBreaks (joinWith (lit "\n") res.comments.reverse))
  else Option.none

/-- The free-standing docstring fallback of `get_var_docstring`: a single
string-literal token alone on the next logical line documents the preceding
declaration; otherwise the comments-above fallback applies. -/
def docstringFallback (tk : ScriptTokenization) (vd : VarData) : Option Str :=
  match List.lookup (vd.logicalLine + 1) tk.tokensFromLogicalLine with
  | some [t] =>
    if t.kind = TokKind.strLit then
      some (removeSingleLineBreaks (pyStrip (stringLiteralValue t.content)))
    else commentFallback tk vd
  | _ => commentFallback tk vd

/-- `docstring.get_var_docstring` from the tokenization on: `None` under the
`HelptextFromCommentsOff` marker or when the tokenization lacks the name;
otherwise a trailing same-line comment is consulted first — `#!` suppresses
the description outright, `#:` strips itself and keeps the trimmed remainder,
any other comment is used with the `#` stripped — and only without a trailing
comment do the docstring-line and comments-above fallbacks run. -/
def get_var_docstring (src : Option ScriptTokenization) (varName : Str)
    (helptextFromCommentsOff : Bool) : Option Str :=
  if helptextFromCommentsOff then Option.none
  else
    match src with
    | Option.none => Option.none
    | some tk =>
      match List.lookup varName tk.varDataFromName with
      | Option.none => Option.none
      | some vd =>
        let lineTokens := (List.lookup vd.logicalLine tk.tokensFromLogicalLine).getD []
        match lineTokens.getLast? with
        | some finalTok =>
          if finalTok.kind = TokKind.comment then
            if (lit "#!").isPrefixOf finalTok.content then Option.none
            else if (lit "#:").isPrefixOf finalTok.content then
              some (removeSingleLineBreaks (pyStrip (finalTok.content.drop 2)))
            else some (removeSingleLineBreaks (pyStrip (finalTok.content.drop 1)))
          else docstringFallback tk vd
        | Option.none => docstringFallback tk vd

/-- Is the value a Python string? -/
def isStrVal : Value → Bool
  | .str _ => true
  | _ => false

/-- Python `int()` on a decimal numeral, used by example handlers. -/
def decNat (s : Str) : Nat := s.foldl (fun acc c => 10 * acc + (c.toNat - 48)) 0

/-- The example handler of the spec: `int(arg) * 2`. -/
def doubleHook : Handler := fun arg _ => .ok (.int (2 * (decNat arg : Int)))

/-- An echo handler returning its raw argument as a string. -/
def echoHook : Handler := fun arg _ => .ok (.str arg)

/-- The root data `a -> b -> c -> x` of the spec's interpolation example. -/
def rootABCval (x : Str) : Value :=
  .dict [(lit "a", .dict [(lit "b", .dict [(lit "c", .str x)])])]

/-- Root data in which the segment `c` of `a.b.c` is missing. -/
def rootMissingC : Value :=
  .dict [(lit "a", .dict [(lit "b", .dict [(lit "d", .int 1)])])]

/-- The whole-value interpolation reference `@\x7ba.b.c\x7d`. -/
def pathRefABC : Str := '@' :: '{' :: (lit "a.b.c" ++ ['}'])

/-- Root data binding `x` to `"1"` and `y` to `"2"`. -/
def dataXY : Value :=
  .dict [(lit "x", .str (lit "1")), (lit "y", .str (lit "2"))]

/-- A string with two embedded interpolations: `A_@\x7bx\x7d_B_@\x7by\x7d_C`. -/
def twoOcc : Str :=
  lit "A_" ++ '@' :: '{' :: (lit "x" ++ '}' :: (lit "_B_" ++ '@' :: '{' :: (lit "y" ++ '}' :: lit "_C")))

/-- Example code-tier declarations. -/
def codeT : List (Str × Decl) :=
  [(lit "x", ⟨lit "int", .int 1⟩), (lit "y", ⟨lit "int", .int 2⟩), (lit "z", ⟨lit "int", .int 3⟩)]

/-- Example file-tier declarations: overrides `y`. -/
def fileT : List (Str × Decl) := [(lit "y", ⟨lit "str", .str (lit "f")⟩)]

/-- Example CLI-tier declarations: overrides `z`. -/
def cliT : List (Str × Decl) := [(lit "z", ⟨lit "str", .str (lit "c")⟩)]

/-- A tokenization whose declaration `x` carries a suppression-marked (`#!`)
trailing comment. -/
def tkSup : ScriptTokenization :=
  { tokens := [⟨TokKind.nameTok, lit "x", 1, 1⟩, ⟨TokKind.comment, '#' :: '!' :: lit " hidden", 1, 1⟩]
    tokensFromLogicalLine :=
      [(1, [⟨TokKind.nameTok, lit "x", 1, 1⟩, ⟨TokKind.comment, '#' :: '!' :: lit " hidden", 1, 1⟩])]
    tokensFromActualLine :=
      [(1, [⟨TokKind.nameTok, lit "x", 1, 1⟩, ⟨TokKind.comment, '#' :: '!' :: lit " hidden", 1, 1⟩])]
    varDataFromName := [(lit "x", ⟨0, 1, 1, 1⟩)] }

/-- A tokenization whose declaration `x` carries a documentation-prefix
(`#:`) trailing comment. -/
def tkPre : ScriptTokenization :=
  { tokens := [⟨TokKind.nameTok, lit "x", 1, 1⟩, ⟨TokKind.comment, '#' :: ':' :: lit " doc text ", 1, 1⟩]
    tokensFromLogicalLine :=
      [(1, [⟨TokKind.nameTok, lit "x", 1, 1⟩, ⟨TokKind.comment, '#' :: ':' :: lit " doc text ", 1, 1⟩])]
    tokensFromActualLine :=
      [(1, [⟨TokKind.nameTok, lit "x", 1, 1⟩, ⟨TokKind.comment, '#' :: ':' :: lit " doc text ", 1, 1⟩])]
    varDataFromName := [(lit "x", ⟨0, 1, 1, 1⟩)] }

/-- Example frame data for the session-controller witnesses. -/
def frameW : FrameInfo :=
  { filename := lit "main.py", lineno := 10, globalsKeys := [lit "__doc__"]
    docValue := lit "demo", fileLines := [lit "import manu"] }

section LookupLemmas

variable {α : Type} {β : Type} [BEq α]

theorem lookup_append (k : α) (xs ys : List (α × β)) :
    List.lookup k (xs ++ ys)
      = ((List.lookup k xs).orElse (fun _ => List.lookup k ys)) := by
  induction xs with
  | nil => simp [List.lookup]
  | cons e xs ih =>
    cases e with
    | mk k1 v =>
      by_cases hb : k == k1
      · simp [List.lookup, hb]
      · simp only [List.cons_append, List.lookup, Bool.not_eq_true] at *
        rw [Bool.eq_false_iff] at hb
        simp [hb, ih]

end LookupLemmas

theorem lookup_map_decl (k : Str) (l : List (Str × Decl)) (g : Str → Decl → Decl) :
    List.lookup k (l.map (fun e => (e.1, g e.1 e.2)))
      = (List.lookup k l).map (g k) := by
  induction l with
  | nil => simp [List.lookup]
  | cons e l ih =>
    cases e with
    | mk k1 v =>
      by_cases hb : k == k1
      · have : k = k1 := eq_of_beq hb
        simp [List.lookup, hb, ← this]
      · rw [Bool.not_eq_true] at hb
        simp [List.lookup, hb, ih]

theorem lookup_filter_key (k : Str) (l : List (Str × Decl)) (p : Str → Bool)
    (hpk : p k = true) :
    List.lookup k (l.filter (fun e => p e.1)) = List.lookup k l := by
  induction l with
  | nil => simp
  | cons e l ih =>
    cases e with
    | mk k1 v =>
      by_cases hb : k == k1
      · have hk : k = k1 := eq_of_beq hb
        rw [← hk, List.filter_cons, hpk]
        simp [List.lookup, ih]
      · rw [Bool.not_eq_true] at hb
        rw [List.filter_cons]
        by_cases hp1 : p k1
        · simp [hp1, List.lookup, hb, ih]
        · simp only [Bool.not_eq_true] at hp1
          simp [hp1, List.lookup, hb, ih]

theorem mergeTwo_lookup (k : Str) (a b : List (Str × Decl)) :
    List.lookup k (mergeTwo a b)
      = ((List.lookup k b).orElse (fun _ => List.lookup k a)) := by
  unfold mergeTwo
  rw [lookup_append, lookup_map_decl k a (fun n d => (List.lookup n b).getD d)]
  cases ha : List.lookup k a with
  | some d =>
    cases hb : List.lookup k b with
    | some d' => simp [Option.orElse]
    | none => simp [Option.orElse]
  | none =>
    rw [lookup_filter_key k b (fun n => (List.lookup n a).isNone) (by simp [ha])]
    cases hb : List.lookup k b with
    | some d' => simp [Option.orElse]
    | none => simp [Option.orElse]

theorem isPrefixOf_cons_of_ne {a c : Char} (ps cs : Str) (h : c ≠ a) :
    (a :: ps).isPrefixOf (c :: cs) = false := by
  simp only [List.isPrefixOf, Bool.and_eq_false_iff]
  left
  rw [beq_eq_false_iff_ne]
  exact fun e => h e.symm

theorem containsSub_embed_atBrace (rest : Str) :
    ∀ (pre : Str), containsSub ('@' :: ['{']) (pre ++ '@' :: '{' :: rest) = true
  | [] => by simp [containsSub, List.isPrefixOf]
  | c :: pre' => by
    simp [containsSub, containsSub_embed_atBrace rest pre']

theorem containsSub_eq_false {a : Char} (ps : Str) :
    ∀ (s : Str), a ∉ s → containsSub (a :: ps) s = false
  | [], _ => by simp [containsSub, List.isEmpty]
  | c :: cs, h => by
    have hc : c ≠ a := fun e => h (by simp [e])
    have h' : a ∉ cs := fun m => h (List.mem_cons_of_mem _ m)
    simp [containsSub, isPrefixOf_cons_of_ne ps cs hc, containsSub_eq_false ps cs h']

theorem findInterps_cons_of_ne (c : Char) (l : Str) (hl : l ≠ []) (hc : c ≠ '@') :
    findInterps (c :: l) = findInterps l := by
  match l, hl with
  | d :: rest, _ =>
    simp only [findInterps]
    rw [if_neg (fun h => hc h.1)]

theorem findInterps_eq_nil : ∀ (s : Str), '@' ∉ s → findInterps s = []
  | [], _ => by simp [findInterps]
  | [c], _ => by simp [findInterps]
  | c :: d :: rest, h => by
    have hc : c ≠ '@' := fun e => h (by simp [e])
    have h' : '@' ∉ d :: rest := fun m => h (List.mem_cons_of_mem _ m)
    rw [findInterps_cons_of_ne c _ (by simp) hc]
    exact findInterps_eq_nil (d :: rest) h'
termination_by s => s.length

theorem breakCloseBrace_append (post : Str) :
    ∀ (p : Str), '}' ∉ p → breakCloseBrace (p ++ '}' :: post) = some (p, post)
  | [], _ => by simp [breakCloseBrace]
  | c :: p', h => by
    have hc : c ≠ '}' := fun e => h (by simp [e])
    have h' : '}' ∉ p' := fun m => h (List.mem_cons_of_mem _ m)
    simp only [List.cons_append, breakCloseBrace, if_neg hc, List.append_eq,
      breakCloseBrace_append post p' h']

theorem findInterps_match (p post : Str) (hp : '}' ∉ p) (hne : p ≠ []) :
    findInterps ('@' :: '{' :: (p ++ '}' :: post)) = p :: findInterps post := by
  simp only [findInterps]
  split
  · split
    · rename_i inn tail heq
      rw [breakCloseBrace_append post p hp] at heq
      cases heq
      rw [if_neg (by simpa [List.isEmpty_iff] using hne)]
    · rename_i heq
      rw [breakCloseBrace_append post p hp] at heq
      cases heq
  · rename_i hcond
    simp at hcond

theorem findInterps_embed (pre p post : Str) (hpre : '@' ∉ pre) (hpost : '@' ∉ post)
    (hp : '}' ∉ p) (hne : p ≠ []) :
    findInterps (pre ++ '@' :: '{' :: (p ++ '}' :: post)) = [p] := by
  induction pre with
  | nil =>
    rw [List.nil_append, findInterps_match p post hp hne, findInterps_eq_nil post hpost]
  | cons c pre' ih =>
    have hc : c ≠ '@' := fun e => hpre (by simp [e])
    have hpre' : '@' ∉ pre' := fun m => hpre (List.mem_cons_of_mem _ m)
    rw [List.cons_append, findInterps_cons_of_ne c _ (by simp) hc]
    exact ih hpre'

theorem findInterps_eq_nil_of_noSub : ∀ (s : Str),
    containsSub ('@' :: ['{']) s = false → findInterps s = []
  | [], _ => by simp [findInterps]
  | [c], _ => by simp [findInterps]
  | c :: d :: rest, h => by
    rw [show containsSub ('@' :: ['{']) (c :: d :: rest)
          = (('@' :: ['{']).isPrefixOf (c :: d :: rest)
              || containsSub ('@' :: ['{']) (d :: rest)) from rfl,
      Bool.or_eq_false_iff] at h
    have hpref := h.1
    have hcd : ¬ (c = '@' ∧ d = '{') := by
      rintro ⟨rfl, rfl⟩
      simp [List.isPrefixOf] at hpref
    simp only [findInterps, if_neg hcd]
    exact findInterps_eq_nil_of_noSub (d :: rest) h.2
termination_by s => s.length

theorem replaceAll_cons_of_ne (pat repl : Str) (c : Char) (cs : Str)
    (h : ¬ (pat ≠ [] ∧ pat.isPrefixOf (c :: cs) = true)) :
    replaceAll pat repl (c :: cs) = c :: replaceAll pat repl cs := by
  rw [replaceAll, dif_neg h]

theorem replaceAll_no_at (pat' repl : Str) :
    ∀ (s : Str), '@' ∉ s → replaceAll ('@' :: pat') repl s = s
  | [], _ => by rw [replaceAll]
  | c :: cs, h => by
    have hc : c ≠ '@' := fun e => h (by simp [e])
    have h' : '@' ∉ cs := fun m => h (List.mem_cons_of_mem _ m)
    rw [replaceAll_cons_of_ne _ _ _ _
      (fun hy => by rw [isPrefixOf_cons_of_ne pat' cs hc] at hy; exact Bool.false_ne_true hy.2),
      replaceAll_no_at pat' repl cs h']
termination_by s => s.length

theorem replaceAll_at_start (pat' repl rest : Str) :
    replaceAll ('@' :: pat') repl (('@' :: pat') ++ rest)
      = repl ++ replaceAll ('@' :: pat') repl rest := by
  rw [List.cons_append, replaceAll,
    dif_pos ⟨by simp, by rw [List.isPrefixOf_iff_prefix]; exact ⟨rest, by simp⟩⟩]
  congr 1
  rw [show ('@' :: (pat' ++ rest)) = ('@' :: pat') ++ rest from rfl, List.drop_left]

theorem replaceAll_embed (pat' repl : Str) :
    ∀ (pre rest : Str), '@' ∉ pre →
      replaceAll ('@' :: pat') repl (pre ++ ('@' :: pat') ++ rest)
        = pre ++ repl ++ replaceAll ('@' :: pat') repl rest
  | [], rest, _ => by
    rw [List.nil_append, replaceAll_at_start, List.nil_append]
  | c :: pre', rest, h => by
    have hc : c ≠ '@' := fun e => h (by simp [e])
    have h' : '@' ∉ pre' := fun m => h (List.mem_cons_of_mem _ m)
    rw [List.cons_append, List.cons_append,
      replaceAll_cons_of_ne _ _ _ _
        (fun hy => by
          rw [isPrefixOf_cons_of_ne pat' _ hc] at hy
          exact Bool.false_ne_true hy.2)]
    have ih := replaceAll_embed pat' repl pre' rest h'
    simp only [List.cons_append, List.append_assoc] at ih ⊢
    rw [ih]

/-- The whole interpolation pass on a string containing exactly one
brace-group occurrence whose path lookup succeeds. -/
theorem interpolateAll_embed (st : ContextState) (pre p post : Str) (r : Value)
    (hpre : '@' ∉ pre) (hpost : '@' ∉ post) (hp : '}' ∉ p) (hne : p ≠ [])
    (hlook : get_nested_value st p = .ok r) :
    interpolateAll st (pre ++ '@' :: '{' :: (p ++ '}' :: post))
      = pre ++ pyStr r ++ post := by
  unfold interpolateAll
  rw [findInterps_embed pre p post hpre hpost hp hne]
  rw [List.foldl_cons, List.foldl_nil]
  rw [show ∀ acc, interpStep st acc p
        = replaceAll ('@' :: ('{' :: (p ++ ['}']))) (pyStr r) acc
      from fun acc => by unfold interpStep; rw [hlook]]
  have hshape : pre ++ '@' :: '{' :: (p ++ '}' :: post)
      = pre ++ ('@' :: ('{' :: (p ++ ['}']))) ++ post := by
    simp
  rw [hshape, replaceAll_embed _ _ pre post hpre, replaceAll_no_at _ _ post hpost]

/-- The interpolation pass leaves a string unchanged when it contains no
brace-group occurrence. -/
theorem interpolateAll_of_noSub (st : ContextState) (s : Str)
    (h : containsSub ('@' :: ['{']) s = false) : interpolateAll st s = s := by
  unfold interpolateAll
  rw [findInterps_eq_nil_of_noSub s h, List.foldl_nil]

/-- Field resolution on a string embedding exactly one interpolation whose
lookup succeeds: the occurrence is substituted by the stringified value and
the result stays a string (the whole-value hook branch cannot fire). -/
theorem resolveFieldValue_single_interp (reg : Registry) (st : ContextState)
    (pre p post : Str) (r : Value)
    (hpre : '@' ∉ pre) (hpost : '@' ∉ post) (hp : '}' ∉ p) (hne : p ≠ [])
    (hlook : get_nested_value st p = .ok r) :
    resolveFieldValue reg st (.str (pre ++ '@' :: '{' :: (p ++ '}' :: post)))
      = .ok (.str (pre ++ pyStr r ++ post)) := by
  have hreq : requiresResolution (.str (pre ++ '@' :: '{' :: (p ++ '}' :: post))) = true := by
    simp only [requiresResolution]
    rw [containsSub_embed_atBrace _ pre, Bool.true_or]
  have hinterp := interpolateAll_embed st pre p post r hpre hpost hp hne hlook
  simp only [resolveFieldValue]
  rw [hreq, if_pos rfl]
  rw [hinterp]
  cases pre with
  | nil =>
    rw [if_neg (fun hcond => by
      have := hcond.2.2
      simp only [List.nil_append] at this
      exact this (by rw [show startsWithAtBrace ('@' :: '{' :: (p ++ '}' :: post)) = true by
        simp [startsWithAtBrace]]))]
  | cons c pre' =>
    have hc : c ≠ '@' := fun e => hpre (by simp [e])
    rw [if_neg (fun hcond => by
      have := hcond.2.1
      rw [List.cons_append, show startsWithAt (c :: (pre' ++ '@' :: '{' :: (p ++ '}' :: post)))
          = false by simp [startsWithAt, hc]] at this
      exact Bool.false_ne_true this)]

/-- Field resolution leaves a string unchanged when every interpolation
lookup inside it fails and it does not start with `@` outside a brace group:
the concrete instance used is the whole-value `@\x7b...\x7d` case with a
failing lookup, where the caught `ValueError` leaves the original text. -/
theorem resolveFieldValue_whole_interp_fail (reg : Registry) (st : ContextState)
    (p : Str) (e : PyErr) (hp : '}' ∉ p) (hne : p ≠ [])
    (hlook : get_nested_value st p = .error e) :
    resolveFieldValue reg st (.str ('@' :: '{' :: (p ++ ['}'])))
      = .ok (.str ('@' :: '{' :: (p ++ ['}']))) := by
  have hreq : requiresResolution (.str ('@' :: '{' :: (p ++ ['}']))) = true := by
    simp only [requiresResolution]
    rw [show ('@' :: '{' :: (p ++ ['}']) : Str) = [] ++ '@' :: '{' :: (p ++ ['}']) by simp,
      show (p ++ ['}'] : Str) = p ++ '}' :: [] from rfl,
      containsSub_embed_atBrace _ [], Bool.true_or]
  have hinterp : interpolateAll st ('@' :: '{' :: (p ++ ['}'])) = '@' :: '{' :: (p ++ ['}']) := by
    unfold interpolateAll
    rw [show ('@' :: '{' :: (p ++ ['}']) : Str) = [] ++ '@' :: '{' :: (p ++ '}' :: []) by simp,
      findInterps_embed [] p [] (by simp) (by simp) hp hne,
      List.foldl_cons, List.foldl_nil]
    unfold interpStep
    rw [hlook]
  simp only [resolveFieldValue]
  rw [hreq, if_pos rfl, hinterp]
  rw [if_neg (fun hcond => by
    have := hcond.2.2
    exact this (by simp [startsWithAtBrace]))]

theorem matchBraceAtStart_of_ne {c : Char} (l : Str) (h : c ≠ '{') :
    matchBraceAtStart (c :: l) = Option.none := by
  rw [matchBraceAtStart, if_neg h]

theorem splitFirstColon_embed (arg : Str) :
    ∀ (hk : Str), ':' ∉ hk → splitFirstColon (hk ++ ':' :: arg) = some (hk, arg)
  | [], _ => by simp [splitFirstColon]
  | c :: hk', h => by
    have hc : c ≠ ':' := fun e => h (by simp [e])
    have h' : ':' ∉ hk' := fun m => h (List.mem_cons_of_mem _ m)
    rw [List.cons_append, splitFirstColon, if_neg hc,
      splitFirstColon_embed arg hk' h']

theorem splitFirstColon_none : ∀ (s : Str), ':' ∉ s → splitFirstColon s = Option.none
  | [], _ => by simp [splitFirstColon]
  | c :: cs, h => by
    have hc : c ≠ ':' := fun e => h (by simp [e])
    have h' : ':' ∉ cs := fun m => h (List.mem_cons_of_mem _ m)
    rw [splitFirstColon, if_neg hc, splitFirstColon_none cs h']

/-- `_process_reference` on `@hook:arg` with a well-formed hook name splits
at the first colon only: the registered handler receives the whole remainder
after that colon as its argument. -/
theorem process_reference_colon (reg : Registry) (st : ContextState)
    (c : Char) (hk' arg : Str) (h : Handler)
    (hcAt : c ≠ '@') (hcBr : c ≠ '{') (hcol : ':' ∉ c :: hk')
    (hreg : List.lookup (c :: hk') reg = some h) :
    process_reference reg st ('@' :: ((c :: hk') ++ (':' :: arg))) = h arg st := by
  have hdrop : (('@' :: ((c :: hk') ++ (':' :: arg))).dropWhile (fun ch => ch = '@'))
      = (c :: hk') ++ (':' :: arg) := by
    simp [List.dropWhile_cons, hcAt]
  have hsplit : splitFirstColon (c :: (hk' ++ ':' :: arg)) = some (c :: hk', arg) := by
    have := splitFirstColon_embed arg (c :: hk') hcol
    simpa using this
  unfold process_reference
  rw [hdrop]
  simp only [List.cons_append, matchBraceAtStart_of_ne _ hcBr, hsplit,
    HookRegistry.get_handler, hreg]

/-- `_process_reference` on a bare `@hook` with no colon and no brace group:
the handler receives the empty argument. -/
theorem process_reference_noArg (reg : Registry) (st : ContextState)
    (c : Char) (hk' : Str) (h : Handler)
    (hcAt : c ≠ '@') (hcBr : c ≠ '{') (hcol : ':' ∉ c :: hk')
    (hreg : List.lookup (c :: hk') reg = some h) :
    process_reference reg st ('@' :: (c :: hk')) = h [] st := by
  have hdrop : (('@' :: (c :: hk')).dropWhile (fun ch => ch = '@')) = c :: hk' := by
    simp [List.dropWhile_cons, hcAt]
  unfold process_reference
  rw [hdrop]
  simp only [matchBraceAtStart_of_ne _ hcBr, splitFirstColon_none _ hcol,
    HookRegistry.get_handler, hreg]

theorem splitOnDot_single : ∀ (n : Str), '.' ∉ n → splitOnDot n = [n]
  | [], _ => by simp [splitOnDot]
  | c :: cs, h => by
    have hc : c ≠ '.' := fun e => h (by simp [e])
    have h' : '.' ∉ cs := fun m => h (List.mem_cons_of_mem _ m)
    simp only [splitOnDot, splitOnDot_single cs h']
    rw [if_neg hc]

theorem mem_of_mem_pyStrip {x : Char} {s : Str} (h : x ∈ pyStrip s) : x ∈ s := by
  unfold pyStrip at h
  rw [List.mem_reverse] at h
  have h1 := (List.dropWhile_sublist _).mem h
  rw [List.mem_reverse] at h1
  exact (List.dropWhile_sublist _).mem h1

theorem removeSingleLineBreaks_id {s : Str} (h : '\n' ∉ s) :
    removeSingleLineBreaks s = s := by
  unfold removeSingleLineBreaks
  rw [show s.map (fun c => if c = '\n' then ' ' else c) = s.map id from
    List.map_congr_left (fun c hc => by
      by_cases hcn : c = '\n'
      · exact absurd (hcn ▸ hc) h
      · rw [if_neg hcn]; rfl)]
  exact List.map_id s

/-- C1: for declarations merged from the tiers `code < file < cli` sharing a
name, the merged entry for that name is the CLI tier's declaration when the
CLI tier supplies one, otherwise the file tier's, otherwise the code tier's;
a tier silent on a name leaves the earlier tier's entry untouched. -/
theorem merge_tiers_precedence (code file cli : List (Str × Decl)) (n : Str) :
    (∀ d, List.lookup n cli = some d →
      List.lookup n (mergeTiers code file cli) = some d)
  ∧ (List.lookup n cli = Option.none →
      ∀ d, List.lookup n file = some d →
        List.lookup n (mergeTiers code file cli) = some d)
  ∧ (List.lookup n cli = Option.none → List.lookup n file = Option.none →
      List.lookup n (mergeTiers code file cli) = List.lookup n code) := by
  have h1 := mergeTwo_lookup n (mergeTwo code file) cli
  have h2 := mergeTwo_lookup n code file
  unfold mergeTiers
  refine ⟨?_, ?_, ?_⟩
  · intro d hd
    rw [h1, hd]
    simp [Option.orElse]
  · intro hcli d hfile
    rw [h1, hcli]
    simp only [Option.orElse]
    rw [h2, hfile]
    simp [Option.orElse]
  · intro hcli hfile
    rw [h1, hcli]
    simp only [Option.orElse]
    rw [h2, hfile]
    simp [Option.orElse]

/-- Witness for C1 on the example tiers: `z` comes from the CLI tier, `y`
from the file tier, and `x` falls back to the code tier. -/
theorem merge_tiers_precedence_w :
    List.lookup (lit "z") (mergeTiers codeT fileT cliT) = some ⟨lit "str", .str (lit "c")⟩
  ∧ List.lookup (lit "y") (mergeTiers codeT fileT cliT) = some ⟨lit "str", .str (lit "f")⟩
  ∧ List.lookup (lit "x") (mergeTiers codeT fileT cliT) = List.lookup (lit "x") codeT :=
  ⟨(merge_tiers_precedence codeT fileT cliT (lit "z")).1 _ rfl,
   (merge_tiers_precedence codeT fileT cliT (lit "y")).2.1 rfl _ rfl,
   (merge_tiers_precedence codeT fileT cliT (lit "x")).2.2 rfl rfl⟩

/-- C5: entering `root_data` increments the depth counter and exiting (the
`finally` clause, run on every exit path) decrements it; root data is
installed only when none is active, a nested re-entry leaves the caller's
root in place, the root is torn down exactly when the counter returns to
zero (never after a nested scope closes), and with a root installed a
handler's `get_nested_value` on another field succeeds mid-resolution. -/
theorem context_reentrancy (s : ContextState) (d : Value) :
    ((root_data_enter s d).depth = s.depth + 1)
  ∧ ((root_data_exit s).depth = s.depth - 1)
  ∧ (s.depth = 0 → s.data.isNone → (root_data_enter s d).data = some d)
  ∧ (∀ r, s.data = some r → (root_data_enter s d).data = some r)
  ∧ (s.depth ≠ 0 → (root_data_enter s d).data = s.data)
  ∧ (∀ r, s.data = some r → s.depth - 1 ≠ 0 → (root_data_exit s).data = some r)
  ∧ (s.depth - 1 = 0 → s.data.isSome → (root_data_exit s).data = Option.none)
  ∧ (∀ fields n v, s.data = some (.dict fields) → '.' ∉ n →
      List.lookup n fields = some v → get_nested_value s n = .ok v) := by
  refine ⟨?_, ?_, ?_, ?_, ?_, ?_, ?_, ?_⟩
  · unfold root_data_enter
    split <;> rfl
  · rfl
  · intro h0 hnone
    unfold root_data_enter
    rw [if_pos ⟨h0, hnone⟩]
  · intro r hr
    unfold root_data_enter
    rw [if_neg (fun hc => by rw [hr] at hc; exact Bool.false_ne_true hc.2)]
    exact hr
  · intro h0
    unfold root_data_enter
    rw [if_neg (fun hc => h0 hc.1)]
  · intro r hr hd
    unfold root_data_exit
    show (if s.depth - 1 = 0 ∧ s.data.isSome = true then Option.none else s.data) = some r
    rw [if_neg (fun hc => hd hc.1), hr]
  · intro hd hsome
    unfold root_data_exit
    show (if s.depth - 1 = 0 ∧ s.data.isSome = true then Option.none else s.data) = Option.none
    rw [if_pos ⟨hd, hsome⟩]
  · intro fields n v hdata hdot hlook
    have hfields : fields ≠ [] := by
      intro he
      rw [he] at hlook
      simp [List.lookup] at hlook
    unfold get_nested_value get_root_data
    rw [hdata]
    show (if isFalsy (Value.dict fields) = true then Except.error PyErr.noContextData
          else getNested (Value.dict fields) (splitOnDot n)) = Except.ok v
    rw [if_neg (by simp [isFalsy, List.isEmpty_iff, hfields]), splitOnDot_single n hdot]
    simp only [getNested, hlook]

/-- Witness for C5: install at depth 0, re-enter leaving the root alone, exit
from the nested level preserving it, exit from the top level tearing it down,
and a mid-resolution field lookup succeeding. -/
theorem context_reentrancy_w :
    (root_data_enter ⟨0, Option.none⟩ dataXY).data = some dataXY
  ∧ (root_data_enter ⟨1, some dataXY⟩ rootMissingC).data = some dataXY
  ∧ (root_data_exit ⟨2, some dataXY⟩).data = some dataXY
  ∧ (root_data_exit ⟨1, some dataXY⟩).data = Option.none
  ∧ get_nested_value ⟨1, some dataXY⟩ (lit "y") = .ok (.str (lit "2")) :=
  ⟨(context_reentrancy ⟨0, Option.none⟩ dataXY).2.2.1 rfl rfl,
   (context_reentrancy ⟨1, some dataXY⟩ rootMissingC).2.2.2.1 dataXY rfl,
   (context_reentrancy ⟨2, some dataXY⟩ dataXY).2.2.2.2.2.1 dataXY rfl (by decide),
   (context_reentrancy ⟨1, some dataXY⟩ dataXY).2.2.2.2.2.2.1 (by decide) rfl,
   (context_reentrancy ⟨1, some dataXY⟩ dataXY).2.2.2.2.2.2.2
     [(lit "x", .str (lit "1")), (lit "y", .str (lit "2"))] (lit "y") (.str (lit "2"))
     rfl (by decide) rfl⟩

/-- C6: `ready` before `init` fails not-initialized, `init` called again
without an intervening teardown fails as a reentrancy error, and in both
failure cases the guard fires before any mutation, leaving the session state
unchanged. -/
theorem session_guards (st : ScriptState) (desc : Option Str) (frame : Option FrameInfo)
    (argv : List Str) (cfgOk : Bool) :
    (st.inited = false → ready st frame argv cfgOk = (some .notInit, st))
  ∧ (st.inited = true → init st desc frame = (some .alreadyInit, st))
  ∧ (∀ fr, st.inited = false →
      init ((init st desc (some fr)).2) desc (some fr)
        = (some .alreadyInit, (init st desc (some fr)).2)) := by
  refine ⟨?_, ?_, ?_⟩
  · intro h
    unfold ready
    rw [if_pos (by simp [h])]
  · intro h
    unfold init
    rw [if_pos (by simp [h])]
  · intro fr h
    have h2 : ((init st desc (some fr)).2).inited = true := by
      unfold init
      rw [if_neg (by simp [h])]
    generalize hX : (init st desc (some fr)).2 = X at h2 ⊢
    unfold init
    rw [if_pos h2]

/-- Witness for C6 on a fresh session state. -/
theorem session_guards_w :
    ready {} Option.none [] true = (some .notInit, ({} : ScriptState))
  ∧ init ((init {} Option.none (some frameW)).2) Option.none (some frameW)
      = (some .alreadyInit, (init {} Option.none (some frameW)).2) :=
  ⟨(session_guards {} Option.none Option.none [] true).1 rfl,
   (session_guards {} Option.none (some frameW) [] true).2.2 frameW rfl⟩

/-- C7: registering a handler under a taken name fails with the duplicate
error and leaves the first handler in place; after `clear` empties the
registry, registering the same name succeeds. -/
theorem registry_duplicate_and_clear (reg : Registry) (name : Str) (f g : Handler)
    (h0 : List.lookup name reg = Option.none) :
    (HookRegistry.register reg name f).1 = Option.none
  ∧ List.lookup name (HookRegistry.register reg name f).2 = some f
  ∧ HookRegistry.register (HookRegistry.register reg name f).2 name g
      = (some (.alreadyRegistered name), (HookRegistry.register reg name f).2)
  ∧ (HookRegistry.register (HookRegistry.clear (HookRegistry.register reg name f).2) name g).1
      = Option.none
  ∧ List.lookup name
      (HookRegistry.register (HookRegistry.clear (HookRegistry.register reg name f).2) name g).2
      = some g := by
  have hr1 : HookRegistry.register reg name f = (Option.none, reg ++ [(name, f)]) := by
    unfold HookRegistry.register
    rw [if_neg (by simp [h0])]
  have hl1 : List.lookup name (reg ++ [(name, f)]) = some f := by
    rw [lookup_append, h0]
    simp [Option.orElse, List.lookup]
  refine ⟨by rw [hr1], by rw [hr1]; exact hl1, ?_, ?_, ?_⟩
  · rw [hr1]
    unfold HookRegistry.register
    rw [if_pos (by simp [hl1])]
  · rw [hr1]
    unfold HookRegistry.clear HookRegistry.register
    rw [if_neg (by simp [List.lookup])]
  · rw [hr1]
    unfold HookRegistry.clear HookRegistry.register
    rw [if_neg (by simp [List.lookup])]
    simp [List.lookup]

/-- Witness for C7: register `h`, fail on the duplicate, clear, re-register. -/
theorem registry_duplicate_and_clear_w :
    (HookRegistry.register [] (lit "h") doubleHook).1 = Option.none
  ∧ List.lookup (lit "h") (HookRegistry.register [] (lit "h") doubleHook).2 = some doubleHook
  ∧ HookRegistry.register (HookRegistry.register [] (lit "h") doubleHook).2 (lit "h") echoHook
      = (some (.alreadyRegistered (lit "h")),
         (HookRegistry.register [] (lit "h") doubleHook).2)
  ∧ List.lookup (lit "h")
      (HookRegistry.register
        (HookRegistry.clear (HookRegistry.register [] (lit "h") doubleHook).2)
        (lit "h") echoHook).2
      = some echoHook :=
  ⟨(registry_duplicate_and_clear [] (lit "h") doubleHook echoHook rfl).1,
   (registry_duplicate_and_clear [] (lit "h") doubleHook echoHook rfl).2.1,
   (registry_duplicate_and_clear [] (lit "h") doubleHook echoHook rfl).2.2.1,
   (registry_duplicate_and_clear [] (lit "h") doubleHook echoHook rfl).2.2.2.2⟩

/-- C2 counterexample: with `c` missing from the root data, the dotted-path
lookup raises the MissingPath `ValueError`, but resolution of the containing
field catches it and returns the original string — it does not fail. -/
theorem interp_missing_path_cex :
    get_nested_value ⟨1, some rootMissingC⟩ (lit "a.b.c")
      = .error (.keyNotFound (lit "c"))
  ∧ resolveFieldValue [] ⟨1, some rootMissingC⟩ (.str pathRefABC)
      = .ok (.str pathRefABC) := by
  constructor
  · rfl
  · exact resolveFieldValue_whole_interp_fail [] ⟨1, some rootMissingC⟩
      (lit "a.b.c") (.keyNotFound (lit "c")) (by decide) (by decide) rfl

/-- C2 (amended): `@\x7ba.b.c\x7d` against `a -> b -> c -> x` resolves to the
string `x`; with `c` missing, the path lookup fails with MissingPath, but the
field-level resolution catches the error and returns the field's original
string unchanged instead of failing. -/
theorem interp_path_resolution (reg : Registry) (dep : Int) (x : Str) :
    (resolveFieldValue reg ⟨dep, some (rootABCval x)⟩ (.str pathRefABC)
       = .ok (.str x))
  ∧ (get_nested_value ⟨dep, some rootMissingC⟩ (lit "a.b.c")
       = .error (.keyNotFound (lit "c")))
  ∧ (resolveFieldValue reg ⟨dep, some rootMissingC⟩ (.str pathRefABC)
       = .ok (.str pathRefABC)) := by
  refine ⟨?_, rfl, ?_⟩
  · have h := resolveFieldValue_single_interp reg ⟨dep, some (rootABCval x)⟩
      [] (lit "a.b.c") [] (.str x) (by decide) (by decide) (by decide) (by decide) rfl
    simpa [pathRefABC, pyStr] using h
  · exact resolveFieldValue_whole_interp_fail reg ⟨dep, some rootMissingC⟩
      (lit "a.b.c") (.keyNotFound (lit "c")) (by decide) (by decide) rfl

/-- Witness for C2 (amended) at `x := "x"` and depth 1 with the empty
registry. -/
theorem interp_path_resolution_w :
    resolveFieldValue [] ⟨1, some (rootABCval (lit "x"))⟩ (.str pathRefABC)
      = .ok (.str (lit "x")) :=
  (interp_path_resolution [] 1 (lit "x")).1

/-- C3: a field value that is entirely one bare `@hook:arg` call (or `@hook`
with empty argument) resolves as a whole: the field is replaced by the
handler's return value itself, unstringified. -/
theorem whole_value_hook_native (reg : Registry) (st : ContextState)
    (c : Char) (hk' : Str) (h : Handler)
    (hcAt : c ≠ '@') (hcBr : c ≠ '{') (hcol : ':' ∉ c :: hk')
    (hreg : List.lookup (c :: hk') reg = some h) :
    (∀ arg : Str,
       containsSub ('@' :: ['{']) ('@' :: ((c :: hk') ++ (':' :: arg))) = false →
       resolveFieldValue reg st (.str ('@' :: ((c :: hk') ++ (':' :: arg)))) = h arg st)
  ∧ (containsSub ('@' :: ['{']) ('@' :: (c :: hk')) = false →
       resolveFieldValue reg st (.str ('@' :: (c :: hk'))) = h [] st) := by
  constructor
  · intro arg hns
    have hreq : requiresResolution (.str ('@' :: ((c :: hk') ++ (':' :: arg)))) = true := by
      simp [requiresResolution, startsWithAt]
    have hint := interpolateAll_of_noSub st _ hns
    simp only [resolveFieldValue]
    rw [hreq, if_pos rfl, hint]
    rw [if_pos ⟨rfl, by simp [startsWithAt], by
      rw [List.cons_append]
      simp [startsWithAtBrace, hcBr]⟩]
    exact process_reference_colon reg st c hk' arg h hcAt hcBr hcol hreg
  · intro hns
    have hreq : requiresResolution (.str ('@' :: (c :: hk'))) = true := by
      simp [requiresResolution, startsWithAt]
    have hint := interpolateAll_of_noSub st _ hns
    simp only [resolveFieldValue]
    rw [hreq, if_pos rfl, hint]
    rw [if_pos ⟨rfl, by simp [startsWithAt], by simp [startsWithAtBrace, hcBr]⟩]
    exact process_reference_noArg reg st c hk' h hcAt hcBr hcol hreg

/-- Witness for C3: `@double:21` with the handler `int(arg) * 2` yields the
integer `42`, not the string `"42"`. -/
theorem whole_value_hook_native_w :
    resolveFieldValue [(lit "double", doubleHook)] ⟨1, Option.none⟩
      (.str ('@' :: (lit "double" ++ (':' :: lit "21"))))
      = .ok (.int 42)
  ∧ Value.int 42 ≠ Value.str (lit "42") :=
  ⟨((whole_value_hook_native [(lit "double", doubleHook)] ⟨1, Option.none⟩
      'd' (lit "ouble") doubleHook (by decide) (by decide) (by decide) rfl).1
      (lit "21") (by decide)).trans rfl,
   fun hEq => Value.noConfusion hEq⟩

/-- C4: a string field with an interpolation embedded in other text resolves
by substituting the occurrence with the stringified lookup, and the result
remains a string; composing several interpolations in one value also stays a
string, as on the two-occurrence example. -/
theorem embedded_interp_stays_string :
    (∀ (reg : Registry) (st : ContextState) (pre p post : Str) (r : Value),
       '@' ∉ pre → '@' ∉ post → '}' ∉ p → p ≠ [] →
       get_nested_value st p = .ok r →
       resolveFieldValue reg st (.str (pre ++ '@' :: '{' :: (p ++ '}' :: post)))
         = .ok (.str (pre ++ pyStr r ++ post)))
  ∧ (∀ reg : Registry,
       resolveFieldValue reg ⟨1, some dataXY⟩ (.str twoOcc)
         = .ok (.str (lit "A_1_B_2_C"))) := by
  constructor
  · exact fun reg st pre p post r h1 h2 h3 h4 h5 =>
      resolveFieldValue_single_interp reg st pre p post r h1 h2 h3 h4 h5
  · intro reg
    simp [resolveFieldValue, requiresResolution, containsSub, startsWithAt, startsWithAtBrace,
      interpolateAll, interpStep, findInterps, breakCloseBrace, get_nested_value, get_root_data,
      isFalsy, splitOnDot, getNested, List.lookup, pyStr, replaceAll, List.isPrefixOf,
      lit, dataXY, twoOcc]

/-- Witness for C4: `"pre_@\x7bx\x7d_post"` with `x = "Y"` resolves to the
string `"pre_Y_post"`. -/
theorem embedded_interp_stays_string_w :
    resolveFieldValue [] ⟨1, some (.dict [(lit "x", .str (lit "Y"))])⟩
      (.str (lit "pre_" ++ '@' :: '{' :: (lit "x" ++ '}' :: lit "_post")))
      = .ok (.str (lit "pre_Y_post")) :=
  embedded_interp_stays_string.1 [] ⟨1, some (.dict [(lit "x", .str (lit "Y"))])⟩
    (lit "pre_") (lit "x") (lit "_post") (.str (lit "Y"))
    (by decide) (by decide) (by decide) (by decide) rfl

/-- C8: a field value containing no `@` marker — any non-string, and any
string without an `@` character — passes through resolution unchanged. -/
theorem no_marker_roundtrip :
    (∀ (reg : Registry) (st : ContextState) (s : Str), '@' ∉ s →
       resolveFieldValue reg st (.str s) = .ok (.str s))
  ∧ (∀ (reg : Registry) (st : ContextState) (v : Value), isStrVal v = false →
       resolveFieldValue reg st v = .ok v) := by
  constructor
  · intro reg st s h
    have hreq : requiresResolution (.str s) = false := by
      simp only [requiresResolution]
      rw [containsSub_eq_false ['{'] s h, Bool.false_or]
      cases s with
      | nil => rfl
      | cons c cs =>
        have hc : c ≠ '@' := fun e => h (by simp [e])
        simp [startsWithAt, hc]
    simp only [resolveFieldValue]
    rw [hreq]
    simp
  · intro reg st v hv
    cases v <;> simp_all [resolveFieldValue, isStrVal]

/-- Witness for C8: the string `"hello"` and the integer `5` round-trip. -/
theorem no_marker_roundtrip_w :
    resolveFieldValue [] ⟨1, Option.none⟩ (.str (lit "hello")) = .ok (.str (lit "hello"))
  ∧ resolveFieldValue [] ⟨1, Option.none⟩ (.int 5) = .ok (.int 5) :=
  ⟨no_marker_roundtrip.1 [] ⟨1, Option.none⟩ (lit "hello") (by decide),
   no_marker_roundtrip.2 [] ⟨1, Option.none⟩ (.int 5) rfl⟩

/-- C9: a suppression-marked (`#!`) trailing comment yields no description
whatever the rest of the tokenization holds, short-circuiting the later
fallback rules; a documentation-prefix (`#:`) trailing comment strips the
marker and returns the whitespace-trimmed remainder. -/
theorem trailing_comment_markers (tk : ScriptTokenization) (varName : Str)
    (vd : VarData) (toks : List Token) (t : Token)
    (hvd : List.lookup varName tk.varDataFromName = some vd)
    (htoks : List.lookup vd.logicalLine tk.tokensFromLogicalLine = some toks)
    (hlast : toks.getLast? = some t)
    (hkind : t.kind = TokKind.comment) :
    (∀ rest, t.content = '#' :: '!' :: rest →
       get_var_docstring (some tk) varName false = Option.none)
  ∧ (∀ rest, t.content = '#' :: ':' :: rest → '\n' ∉ rest →
       get_var_docstring (some tk) varName false = some (pyStrip rest)) := by
  have hbase : get_var_docstring (some tk) varName false
      = (if (lit "#!").isPrefixOf t.content then Option.none
         else if (lit "#:").isPrefixOf t.content then
           some (removeSingleLineBreaks (pyStrip (t.content.drop 2)))
         else some (removeSingleLineBreaks (pyStrip (t.content.drop 1)))) := by
    simp only [get_var_docstring, hvd, htoks, Option.getD_some, hlast, hkind]
    simp
  constructor
  · intro rest hcontent
    rw [hbase, hcontent]
    rw [if_pos (by simp [lit, List.isPrefixOf])]
  · intro rest hcontent hnl
    rw [hbase, hcontent]
    rw [if_neg (by simp [lit, List.isPrefixOf]), if_pos (by simp [lit, List.isPrefixOf])]
    rw [show (('#' :: ':' :: rest).drop 2) = rest from rfl]
    rw [removeSingleLineBreaks_id (fun m => hnl (mem_of_mem_pyStrip m))]

/-- Witness for C9 on two concrete tokenizations: the suppression-marked
declaration has no description; the prefix-marked one keeps the trimmed
remainder. -/
theorem trailing_comment_markers_w :
    get_var_docstring (some tkSup) (lit "x") false = Option.none
  ∧ get_var_docstring (some tkPre) (lit "x") false = some (lit "doc text") :=
  ⟨(trailing_comment_markers tkSup (lit "x") ⟨0, 1, 1, 1⟩
      [⟨TokKind.nameTok, lit "x", 1, 1⟩, ⟨TokKind.comment, '#' :: '!' :: lit " hidden", 1, 1⟩]
      ⟨TokKind.comment, '#' :: '!' :: lit " hidden", 1, 1⟩
      rfl rfl rfl rfl).1 (lit " hidden") rfl,
   ((trailing_comment_markers tkPre (lit "x") ⟨0, 1, 1, 1⟩
      [⟨TokKind.nameTok, lit "x", 1, 1⟩, ⟨TokKind.comment, '#' :: ':' :: lit " doc text ", 1, 1⟩]
      ⟨TokKind.comment, '#' :: ':' :: lit " doc text ", 1, 1⟩
      rfl rfl rfl rfl).2 (lit " doc text ") rfl (by decide)).trans rfl⟩

/-- C10: `_process_reference` on `@hook:argument` splits at the first colon
only, so an argument containing further colons reaches the handler verbatim,
colons included. -/
theorem hook_arg_first_colon_only (reg : Registry) (st : ContextState)
    (c : Char) (hk' a b : Str) (h : Handler)
    (hcAt : c ≠ '@') (hcBr : c ≠ '{') (hcol : ':' ∉ c :: hk')
    (hreg : List.lookup (c :: hk') reg = some h) :
    process_reference reg st ('@' :: ((c :: hk') ++ (':' :: (a ++ ':' :: b))))
      = h (a ++ ':' :: b) st :=
  process_reference_colon reg st c hk' (a ++ ':' :: b) h hcAt hcBr hcol hreg

/-- Witness for C10: `@myhook:a:b:c` hands the echo handler exactly
`"a:b:c"`. -/
theorem hook_arg_first_colon_only_w :
    process_reference [(lit "myhook", echoHook)] ⟨1, Option.none⟩
      ('@' :: (lit "myhook" ++ (':' :: (lit "a" ++ ':' :: lit "b:c"))))
      = .ok (.str (lit "a:b:c")) :=
  (hook_arg_first_colon_only [(lit "myhook", echoHook)] ⟨1, Option.none⟩
    'm' (lit "yhook") (lit "a") (lit "b:c") echoHook
    (by decide) (by decide) (by decide) rfl).trans rfl

end Manu
